import Mathlib

/-!
# TensorFlow Image Scanner: the classifier session of `src/App.js`

A shallow embedding of the `App` component: its React state and `modelRef`, the handlers
`loadModel`, `handleFileSelect` and `analyzeImage`, and the JavaScript built-ins they call.

Conventions of the embedding.

* A JavaScript number is the rational it denotes. Every finite double is one, and comparison and
  the sign of a difference agree with the rationals on finite doubles. `NaN` and the infinities
  are not represented.
* Where an operation on doubles rounds, its result is rounded by `roundDouble` (binary64, to
  nearest, ties to even): the product and the sum of lines 100 and 101. The product of a
  `Float32Array` entry with `100` in line 90 is exact in double arithmetic (24 + 7 significant
  bits) and is not rounded.
* `null` and `undefined` are `none`.
* An `await` that rejects and an expression that throws are a failed outcome of the `try` block.
* `alert(msg)` is recorded in the list of messages a handler returns next to the new state.
-/

namespace ImageScanner

/-! ## JavaScript built-ins -/

/-- Truthiness of a value that is a string, `null` or `undefined`: only a non-empty string is
truthy. -/
def truthy : Option String → Bool
  | none => false
  | some s => s ≠ ""

/-- The expression `v || d` for a string-or-undefined `v` and a string `d`. -/
def jsOr (v : Option String) (d : String) : String :=
  match v with
  | none => d
  | some s => if s ≠ "" then s else d

/-- One step of a stable sort under a comparator `cmp`: `x`, which stood before every element of
the sorted list `ys` in the input, goes in front of the first `y` it does not have to follow
(`cmp x y ≤ 0`). -/
def insertSorted {α : Type} (cmp : α → α → ℚ) (x : α) : List α → List α
  | [] => [x]
  | y :: ys => if cmp x y ≤ 0 then x :: y :: ys else y :: insertSorted cmp x ys

/-- The method `Array.prototype.sort(cmp)`: a stable sort (ECMAScript 2019), `a` before `b` when
`cmp a b < 0`, elements that compare equal kept in their input order. -/
def sort {α : Type} (cmp : α → α → ℚ) : List α → List α
  | [] => []
  | x :: xs => insertSorted cmp x (sort cmp xs)

/-- The method `Array.prototype.map((x, idx) => f x idx)` on the part of an array that starts at
index `k`. -/
def mapFrom {α β : Type} (f : α → ℕ → β) (k : ℕ) : List α → List β
  | [] => []
  | x :: xs => f x k :: mapFrom f (k + 1) xs

/-- The method `Array.prototype.map` with a callback that takes the element and its index. -/
def mapWithIndex {α β : Type} (f : α → ℕ → β) (xs : List α) : List β :=
  mapFrom f 0 xs

/-- The integer `n` of `Number.prototype.toFixed(2)` for a non-negative `x`: the one for which
`n / 100 - x` is as close to zero as possible, the larger one if there are two. -/
def nearestHundredths (x : ℚ) : ℕ :=
  ⌊x * 100 + 1 / 2⌋.toNat

/-- The digits of `toFixed(2)` for the integer `n`: the decimal representation of `n`, padded
with zeros on the left to three digits, with a point before the last two. -/
def fixedDigits (n : ℕ) : String :=
  let m := Nat.toDigits 10 n
  let k := m.length
  let m := if k ≤ 2 then List.replicate (2 + 1 - k) '0' ++ m else m
  let k := if k ≤ 2 then 2 + 1 else k
  String.mk (m.take (k - 2)) ++ "." ++ String.mk (m.drop (k - 2))

/-- The method `Number.prototype.toFixed(2)` (ECMA-262, 21.1.3.3). A magnitude of `10^21` or
more is rendered by `Number::toString` in exponent notation; that rendering is the parameter
`numberToString`. -/
def toFixed (numberToString : ℚ → String) (x : ℚ) : String :=
  let s := if x < 0 then "-" else ""
  let x := if x < 0 then -x else x
  if 10 ^ 21 ≤ x then s ++ numberToString x
  else s ++ fixedDigits (nearestHundredths x)

/-- The integer nearest to `y`, the even one of the two when `y` lies halfway. -/
def roundHalfEven (y : ℚ) : ℤ :=
  if y - ⌊y⌋ < 1 / 2 then ⌊y⌋
  else if 1 / 2 < y - ⌊y⌋ then ⌊y⌋ + 1
  else if ⌊y⌋ % 2 = 0 then ⌊y⌋ else ⌊y⌋ + 1

/-- The position of the leading bit of `n`, found by halving; `fuel` bounds the halvings. -/
def log2Fuel : ℕ → ℕ → ℕ
  | 0, _ => 0
  | fuel + 1, n => if n < 2 then 0 else log2Fuel fuel (n / 2) + 1

/-- The whole part of the binary logarithm of a positive rational: the difference of the leading
bit positions of numerator and denominator, or one less. -/
def floorLog2 (x : ℚ) : ℤ :=
  if (2 : ℚ) ^ ((log2Fuel x.num.natAbs x.num.natAbs : ℤ) - (log2Fuel x.den x.den : ℤ)) ≤ x then
    (log2Fuel x.num.natAbs x.num.natAbs : ℤ) - (log2Fuel x.den x.den : ℤ)
  else (log2Fuel x.num.natAbs x.num.natAbs : ℤ) - (log2Fuel x.den x.den : ℤ) - 1

/-- The exponent of the unit in the last place of the binary64 numbers around a positive `x`:
53 significant bits, and `2^-1074` for the subnormal numbers. -/
def ulpExponent (x : ℚ) : ℤ := max (floorLog2 x - 52) (-1074)

/-- The binary64 number that an arithmetic operation with the exact result `x` returns: the
multiple of the unit in the last place nearest to `x`, ties to the even one. Overflow to
infinity, from `2^1024` on, is not represented. -/
def roundDouble (x : ℚ) : ℚ :=
  if x < 0 then -((roundHalfEven (-x / 2 ^ ulpExponent (-x)) : ℚ) * 2 ^ ulpExponent (-x))
  else (roundHalfEven (x / 2 ^ ulpExponent x) : ℚ) * 2 ^ ulpExponent x

/-! ## The ranking of `analyzeImage` (lines 82 to 91) -/

/-- An element `{ prob, idx }` of the array that `analyzeImage` sorts. -/
structure Entry where
  prob : ℚ
  idx : ℕ
deriving DecidableEq

/-- The value `{ label, confidence }` passed to `setPredictions`. -/
structure PredictionResult where
  label : String
  confidence : String
deriving DecidableEq

/-- The label table: `labelsText.split('\n').filter(l => l)`. -/
def labels (labelsText : String) : List String :=
  (labelsText.splitOn "\n").filter (fun l => l ≠ "")

/-- The winning entry: `Array.from(predictions).map((prob, idx) => ({ prob, idx }))
.sort((a, b) => b.prob - a.prob)[0]`; `undefined` for an empty vector. -/
def topPrediction (predictions : List ℚ) : Option Entry :=
  (sort (fun a b => b.prob - a.prob)
    (mapWithIndex (fun prob idx => Entry.mk prob idx) predictions))[0]?

/-- Lines 82 to 91: the result built from the probability vector and the label text. Reading
`topPrediction.idx` of `undefined` throws (`none`). -/
def rankedResult (numberToString : ℚ → String) (predictions : List ℚ) (labelsText : String) :
    Option PredictionResult :=
  match topPrediction predictions with
  | none => none
  | some top =>
    some { label := jsOr (labels labelsText)[top.idx]? "Unknown"
           confidence := toFixed numberToString (top.prob * 100) }

/-- The order a stable descending sort leaves between two entries whose indices increased in the
input: the later one has a smaller value, or the same value and a larger index. -/
def RankedBefore (a b : Entry) : Prop :=
  b.prob < a.prob ∨ (b.prob = a.prob ∧ a.idx < b.idx)

/-! ## The fallback of `analyzeImage` (lines 93 to 106) -/

/-- A value returned by `Math.random()`: a double that is at least 0 and less than 1, that is
`mant / 2^shift` with a significand below `2^53` and an exponent down to `-1074`. -/
structure Draw where
  mant : ℕ
  shift : ℕ
  mant_lt : mant < 2 ^ 53
  shift_le : shift ≤ 1074
  lt_one : mant < 2 ^ shift

/-- The number a draw denotes. -/
def Draw.val (r : Draw) : ℚ := (r.mant : ℚ) / 2 ^ r.shift

/-- The array `demoLabels`. -/
def demoLabels : List String :=
  ["Siamese cat, Siamese", "Persian cat", "Egyptian cat", "Tiger cat", "Tabby cat"]

/-- The index `Math.floor(Math.random() * demoLabels.length)`, the product rounded to a
double. -/
def randomIndex (r : Draw) : ℕ :=
  ⌊roundDouble (r.val * (demoLabels.length : ℚ))⌋.toNat

/-- The label `demoLabels[Math.floor(Math.random() * demoLabels.length)]`. An index outside the
array would give `undefined`; `randomIndex_lt` shows that the index is always within it. -/
def randomLabel (r : Draw) : String :=
  if h : randomIndex r < demoLabels.length then demoLabels.get ⟨randomIndex r, h⟩
  else "undefined"

/-- The string `(85 + Math.random() * 14).toFixed(2)`, the product and the sum rounded to
doubles. -/
def randomConfidence (numberToString : ℚ → String) (r : Draw) : String :=
  toFixed numberToString (roundDouble (85 + roundDouble (r.val * 14)))

/-! ## The session: React state and `modelRef` -/

/-- The handle that `tf.loadLayersModel` resolves to. What `predict` returns for an image is an
outcome of the analysis (see `Analysis`). -/
structure Model where
  url : String
deriving DecidableEq

/-- The selected `File`: its name and its declared media type. -/
structure File where
  name : String
  type : String
deriving DecidableEq

/-- The state of `App`: the five `useState` variables and `modelRef.current`. -/
structure Session where
  selectedImage : Option String
  fileName : String
  predictions : Option PredictionResult
  isLoading : Bool
  modelLoaded : Bool
  modelRef : Option Model
deriving DecidableEq

/-- The state at mount: `useState(null)`, `useState('')`, `useState(null)`, `useState(false)`,
`useState(false)`, `useRef(null)`. -/
def initial : Session :=
  { selectedImage := none, fileName := "", predictions := none, isLoading := false,
    modelLoaded := false, modelRef := none }

/-- The message of the `catch` branch of `loadModel`. -/
def loadFailedAlert : String := "Model loading failed. Using demo mode."

/-- The message of the `else` branch of `handleFileSelect`. -/
def invalidFileAlert : String := "Please select a valid image file"

/-- The message of the guard of `analyzeImage`. -/
def noImageAlert : String := "Please select an image first"

/-- The message of the `catch` branch of `analyzeImage`. -/
def analysisFailedAlert : String := "Error analyzing image. Please try again."

/-- The handler `loadModel` once `tf.loadLayersModel` has settled: `some model` when it resolved,
`none` when it rejected (the `catch` branch). -/
def loadModel (outcome : Option Model) (s : Session) : Session × List String :=
  match outcome with
  | some model => ({ s with modelRef := some model, modelLoaded := true }, [])
  | none => ({ s with modelLoaded := true }, [loadFailedAlert])

/-- The handler `handleFileSelect` up to `reader.readAsDataURL(file)`; `file` is
`e.target.files[0]`. -/
def handleFileSelect (file : Option File) (s : Session) : Session × List String :=
  match file with
  | some f =>
    if f.type.startsWith "image/" then ({ s with fileName := f.name }, [])
    else (s, [invalidFileAlert])
  | none => (s, [invalidFileAlert])

/-- The callback `reader.onload` of `handleFileSelect`; `result` is `event.target.result`. -/
def readerOnload (result : String) (s : Session) : Session :=
  { s with selectedImage := some result, predictions := none }

/-- What the operations awaited or called by one run of `analyzeImage` yield. -/
structure Analysis where
  /-- The image decodes: `img.onload` fires (`true`) or `img.onerror` does (`false`). -/
  imageLoads : Bool
  /-- The preprocessing `fromPixels ... expandDims` returns (`true`) or throws (`false`). -/
  tensorReady : Bool
  /-- The vector `await modelRef.current.predict(tensor).data()`; `none` when it throws. -/
  predictions : Option (List ℚ)
  /-- The text `await response.text()` of the fetched label file; `none` when that fails. -/
  labelsText : Option String
  /-- The first `Math.random()`, of line 100. -/
  labelDraw : Draw
  /-- The second `Math.random()`, of line 101. -/
  confidenceDraw : Draw

/-- How the `try` block of `analyzeImage` ends: with the result of the branch of the model, with
the result of the `else` branch, or in the `catch` branch. -/
inductive Outcome where
  | real (r : PredictionResult)
  | demo (r : PredictionResult)
  | thrown
deriving DecidableEq

/-- The `try` block of `analyzeImage` (lines 58 to 107), for the value of `modelRef.current`. -/
def tryBlock (numberToString : ℚ → String) (a : Analysis) (modelRef : Option Model) : Outcome :=
  if a.imageLoads then
    match modelRef with
    | some _ =>
      if a.tensorReady then
        match a.predictions with
        | some predictions =>
          match a.labelsText with
          | some labelsText =>
            match rankedResult numberToString predictions labelsText with
            | some r => Outcome.real r
            | none => Outcome.thrown
          | none => Outcome.thrown
        | none => Outcome.thrown
      else Outcome.thrown
    | none =>
      Outcome.demo { label := randomLabel a.labelDraw
                     confidence := randomConfidence numberToString a.confidenceDraw }
  else Outcome.thrown

/-- The start of `analyzeImage` (lines 50 to 55), up to the first `await`: `none` when the guard
returns, else the state after `setIsLoading(true)`. -/
def analyzeStart (s : Session) : Option Session :=
  if truthy s.selectedImage then some { s with isLoading := true } else none

/-- The rest of `analyzeImage` (lines 57 to 113), applied to the state it finds: the `try` block,
`setPredictions` or the alert of the `catch` branch, then `setIsLoading(false)`. -/
def analyzeFinish (numberToString : ℚ → String) (a : Analysis) (s : Session) :
    Session × List String :=
  match tryBlock numberToString a s.modelRef with
  | Outcome.real r => ({ s with predictions := some r, isLoading := false }, [])
  | Outcome.demo r => ({ s with predictions := some r, isLoading := false }, [])
  | Outcome.thrown => ({ s with isLoading := false }, [analysisFailedAlert])

/-- The handler `analyzeImage`, run from the click to its end. -/
def analyzeImage (numberToString : ℚ → String) (a : Analysis) (s : Session) :
    Session × List String :=
  match analyzeStart s with
  | none => (s, [noImageAlert])
  | some s1 => analyzeFinish numberToString a s1

/-- The attribute `disabled={!selectedImage || isLoading}` of the analyze button. -/
def analyzeDisabled (s : Session) : Bool :=
  !truthy s.selectedImage || s.isLoading

/-- What can happen to a mounted `App`. -/
inductive Event where
  /-- The promise of `tf.loadLayersModel` settles. -/
  | loadSettled (outcome : Option Model)
  /-- The file input fires `change`. -/
  | fileChange (file : Option File)
  /-- The `FileReader` fires `load`. -/
  | readerLoad (result : String)
  /-- The analyze button is clicked. -/
  | analyzeClick
  /-- A started run of `analyzeImage` gets past its awaits. -/
  | analyzeSettled (a : Analysis)

/-- When an event can happen: `loadModel` runs once, from the effect at mount; a click needs an
enabled button; a run of `analyzeImage` ends after it started. -/
def Event.enabled (s : Session) : Event → Bool
  | Event.loadSettled _ => !s.modelLoaded
  | Event.fileChange _ => true
  | Event.readerLoad _ => true
  | Event.analyzeClick => !analyzeDisabled s
  | Event.analyzeSettled _ => s.isLoading

/-- The state after an event. -/
def step (numberToString : ℚ → String) (s : Session) : Event → Session
  | Event.loadSettled outcome => (loadModel outcome s).1
  | Event.fileChange file => (handleFileSelect file s).1
  | Event.readerLoad result => readerOnload result s
  | Event.analyzeClick => (analyzeStart s).getD s
  | Event.analyzeSettled a => (analyzeFinish numberToString a s).1

/-- The states a session can be in: `initial` and what enabled events lead to. -/
inductive Reachable (numberToString : ℚ → String) : Session → Prop where
  | init : Reachable numberToString initial
  | next (s : Session) (e : Event) (hs : Reachable numberToString s)
      (he : Event.enabled s e = true) : Reachable numberToString (step numberToString s e)

/-- A rendering of the magnitudes from `10^21` on for the closed examples below, none of which
has a number of that size. -/
def exponentForm (_ : ℚ) : String := "1e+21"

/-! ## Concrete inputs for the closed examples -/

/-- The draw 4095/4096, for which the product with 14 and the sum with 85 are exact. -/
def nearOneDraw : Draw :=
  { mant := 4095, shift := 12, mant_lt := by decide, shift_le := by decide,
    lt_one := by decide }

/-- The draw 0. -/
def zeroDraw : Draw :=
  { mant := 0, shift := 0, mant_lt := by decide, shift_le := by decide, lt_one := by decide }

/-- The draw `1 - 2^-52`. -/
def lastDraw : Draw :=
  { mant := 2 ^ 52 - 1, shift := 52, mant_lt := by decide, shift_le := by decide,
    lt_one := by decide }

/-- The double nearest to 0.6. -/
def pointSixDraw : Draw :=
  { mant := 5404319552844595, shift := 53, mant_lt := by decide, shift_le := by decide,
    lt_one := by decide }

/-- The draw `1608428438347 / 2^52`, whose exact `85 + 14 r` lies just above 85.005 and whose
double sum lies just below. -/
def roundingDraw : Draw :=
  { mant := 1608428438347, shift := 52, mant_lt := by decide, shift_le := by decide,
    lt_one := by decide }

/-- An image file. -/
def pngFile : File :=
  { name := "cat.png", type := "image/png" }

/-- A text file. -/
def textFile : File :=
  { name := "notes.txt", type := "text/plain" }

/-- The result of `readAsDataURL` for an image file. -/
def dataUrl : String := "data:image/png;base64,iVBORw0KGgo="

/-- A run of `analyzeImage` in which the image decodes and both draws are 0. -/
def decodedRun : Analysis :=
  { imageLoads := true, tensorReady := true, predictions := none, labelsText := none,
    labelDraw := zeroDraw, confidenceDraw := zeroDraw }

/-- A run of `analyzeImage` in which the image decodes, the first draw is the double nearest to
0.6 and the second is `roundingDraw`. -/
def roundedRun : Analysis :=
  { imageLoads := true, tensorReady := true, predictions := none, labelsText := none,
    labelDraw := pointSixDraw, confidenceDraw := roundingDraw }

/-- A run of `analyzeImage` in which the image fails to decode. -/
def failedDecodeRun : Analysis :=
  { imageLoads := false, tensorReady := true, predictions := none, labelsText := none,
    labelDraw := zeroDraw, confidenceDraw := zeroDraw }

/-- A run of `analyzeImage` with the vector 0.1, 0.7, 0.2 and the labels cat, dog, bird. -/
def rankedRun : Analysis :=
  { imageLoads := true, tensorReady := true, predictions := some [1 / 10, 7 / 10, 2 / 10],
    labelsText := some "cat\ndog\nbird", labelDraw := zeroDraw, confidenceDraw := nearOneDraw }

/-- A run of `analyzeImage` in which the image decodes and the inference throws. -/
def inferenceFailsRun : Analysis :=
  { imageLoads := true, tensorReady := true, predictions := none,
    labelsText := some "cat\ndog\nbird", labelDraw := zeroDraw, confidenceDraw := zeroDraw }

/-- The session after an image was chosen and read, the model still being loaded. -/
def imageChosen : Session :=
  step exponentForm (step exponentForm initial (Event.fileChange (some pngFile)))
    (Event.readerLoad dataUrl)

/-- The session with the chosen image once the loading of the model has failed. -/
def loadFailed : Session :=
  step exponentForm imageChosen (Event.loadSettled none)

/-- The session after an analysis of the chosen image in that state has ended: it shows a demo
result. -/
def resultShown : Session :=
  step exponentForm (step exponentForm loadFailed Event.analyzeClick)
    (Event.analyzeSettled decodedRun)

/-- The session with the chosen image once the model has been loaded. -/
def modelReady : Session :=
  step exponentForm imageChosen (Event.loadSettled (some (Model.mk "model.json")))

/-- The session after an analysis with the loaded model has ended: it shows a ranked result. -/
def rankedShown : Session :=
  step exponentForm (step exponentForm modelReady Event.analyzeClick)
    (Event.analyzeSettled rankedRun)

/-! ## Sorting lemmas -/

theorem head_insertSorted {α : Type} (cmp : α → α → ℚ) (x : α) (l : List α) :
    (insertSorted cmp x l)[0]? =
      match l[0]? with
      | none => some x
      | some y => if cmp x y ≤ 0 then some x else some y := by
  cases l with
  | nil => rfl
  | cons y ys =>
    simp only [insertSorted, List.getElem?_cons_zero]
    split <;> simp

theorem insertSorted_perm {α : Type} (cmp : α → α → ℚ) (x : α) (l : List α) :
    (insertSorted cmp x l).Perm (x :: l) := by
  induction l with
  | nil => exact List.Perm.refl _
  | cons y ys ih =>
    simp only [insertSorted]
    split
    · exact List.Perm.refl _
    · exact (List.Perm.cons y ih).trans (List.Perm.swap x y ys)

/-- The model of `sort` returns a rearrangement of its input. -/
theorem sort_perm {α : Type} (cmp : α → α → ℚ) (l : List α) : (sort cmp l).Perm l := by
  induction l with
  | nil => exact List.Perm.refl _
  | cons x xs ih =>
    exact (insertSorted_perm cmp x (sort cmp xs)).trans (List.Perm.cons x ih)

theorem insertSorted_ranked (x : Entry) (l : List Entry) (hl : l.Pairwise RankedBefore)
    (hx : ∀ y ∈ l, x.idx < y.idx) :
    (insertSorted (fun a b : Entry => b.prob - a.prob) x l).Pairwise RankedBefore := by
  induction l with
  | nil => simp [insertSorted]
  | cons y ys ih =>
    obtain ⟨hy, hys⟩ := List.pairwise_cons.mp hl
    simp only [insertSorted]
    by_cases hc : y.prob - x.prob ≤ 0
    · rw [if_pos hc]
      have hxy : RankedBefore x y := by
        rcases lt_or_eq_of_le (sub_nonpos.mp hc) with h | h
        · exact Or.inl h
        · exact Or.inr ⟨h, hx y (List.mem_cons_self _ _)⟩
      refine List.pairwise_cons.mpr ⟨?_, hl⟩
      intro z hz
      rcases List.mem_cons.mp hz with rfl | hz
      · exact hxy
      · have hxz := hx z (List.mem_cons_of_mem _ hz)
        have hle : z.prob ≤ x.prob := by
          have h1 : z.prob ≤ y.prob := by
            rcases hy z hz with h | h
            · exact le_of_lt h
            · exact le_of_eq h.1
          exact le_trans h1 (sub_nonpos.mp hc)
        rcases lt_or_eq_of_le hle with h | h
        · exact Or.inl h
        · exact Or.inr ⟨h, hxz⟩
    · rw [if_neg hc]
      have hlt : x.prob < y.prob := by
        have := not_le.mp hc
        linarith
      refine List.pairwise_cons.mpr ⟨?_, ih hys (fun z hz => hx z (List.mem_cons_of_mem _ hz))⟩
      intro z hz
      have hz2 := (insertSorted_perm (fun a b : Entry => b.prob - a.prob) x ys).mem_iff.mp hz
      rcases List.mem_cons.mp hz2 with rfl | hz3
      · exact Or.inl hlt
      · exact hy z hz3

/-- The model of `sort` with the comparator of `analyzeImage` orders entries whose indices
increase in the input by descending value, entries of equal value staying in the order of their
indices: it is the stable descending sort. -/
theorem sort_ranked (l : List Entry) (hl : l.Pairwise (fun a b => a.idx < b.idx)) :
    (sort (fun a b : Entry => b.prob - a.prob) l).Pairwise RankedBefore := by
  induction l with
  | nil => simp [sort]
  | cons x xs ih =>
    obtain ⟨hx, hxs⟩ := List.pairwise_cons.mp hl
    simp only [sort]
    refine insertSorted_ranked x _ (ih hxs) ?_
    intro y hy
    exact hx y ((sort_perm _ xs).mem_iff.mp hy)

theorem mapFrom_idx_ge (p : List ℚ) (k : ℕ) :
    ∀ e ∈ mapFrom (fun prob idx => Entry.mk prob idx) k p, k ≤ e.idx := by
  induction p generalizing k with
  | nil => intro e he; simp [mapFrom] at he
  | cons q qs ih =>
    intro e he
    simp only [mapFrom, List.mem_cons] at he
    rcases he with rfl | he
    · exact le_refl _
    · exact Nat.le_of_succ_le (ih (k + 1) e he)

theorem mapFrom_idx_increasing (p : List ℚ) (k : ℕ) :
    (mapFrom (fun prob idx => Entry.mk prob idx) k p).Pairwise (fun a b => a.idx < b.idx) := by
  induction p generalizing k with
  | nil => simp [mapFrom]
  | cons q qs ih =>
    simp only [mapFrom]
    exact List.pairwise_cons.mpr ⟨fun e he => mapFrom_idx_ge qs (k + 1) e he, ih (k + 1)⟩

/-- The array that `analyzeImage` indexes with `[0]` is the vector in descending order of value,
equal values in ascending order of index. -/
theorem sorted_entries_ranked (p : List ℚ) :
    (sort (fun a b : Entry => b.prob - a.prob)
      (mapWithIndex (fun prob idx => Entry.mk prob idx) p)).Pairwise RankedBefore :=
  sort_ranked _ (mapFrom_idx_increasing p 0)

/-- The first element after the descending sort of the indexed entries of `p` (indices from `k`)
is the entry of a position `j` that holds a maximum of `p`, and of the lowest such position. -/
theorem head_sort_entries (p : List ℚ) (k : ℕ) (t : Entry)
    (h : (sort (fun a b : Entry => b.prob - a.prob)
      (mapFrom (fun prob idx => Entry.mk prob idx) k p))[0]? = some t) :
    ∃ j, p[j]? = some t.prob ∧ t.idx = k + j ∧
      ∀ i x, p[i]? = some x → x ≤ t.prob ∧ (x = t.prob → j ≤ i) := by
  induction p generalizing k t with
  | nil => simp [mapFrom, sort] at h
  | cons q qs ih =>
    simp only [mapFrom, sort] at h
    rw [head_insertSorted] at h
    cases hs : (sort (fun a b : Entry => b.prob - a.prob)
        (mapFrom (fun prob idx => Entry.mk prob idx) (k + 1) qs))[0]? with
    | none =>
      rw [hs] at h
      simp only [Option.some.injEq] at h
      subst h
      have hnil : qs = [] := by
        cases qs with
        | nil => rfl
        | cons r rs =>
          exfalso
          have hp := sort_perm (fun a b : Entry => b.prob - a.prob)
            (mapFrom (fun prob idx => Entry.mk prob idx) (k + 1) (r :: rs))
          have hlen := hp.length_eq
          cases hl : sort (fun a b : Entry => b.prob - a.prob)
              (mapFrom (fun prob idx => Entry.mk prob idx) (k + 1) (r :: rs)) with
          | nil => rw [hl] at hlen; simp [mapFrom] at hlen
          | cons a as => rw [hl] at hs; simp at hs
      subst hnil
      refine ⟨0, by simp, by simp, ?_⟩
      intro i x hi
      cases i with
      | zero =>
        simp only [List.getElem?_cons_zero, Option.some.injEq] at hi
        subst hi
        exact ⟨le_refl _, fun _ => le_refl _⟩
      | succ i => simp at hi
    | some u =>
      rw [hs] at h
      obtain ⟨j, hj, hidx, hmax⟩ := ih (k + 1) u hs
      by_cases hc : u.prob - q ≤ 0
      · simp only [hc, if_true, Option.some.injEq] at h
        subst h
        refine ⟨0, by simp, by simp, ?_⟩
        intro i x hi
        cases i with
        | zero =>
          simp only [List.getElem?_cons_zero, Option.some.injEq] at hi
          subst hi
          exact ⟨le_refl _, fun _ => le_refl _⟩
        | succ i =>
          simp only [List.getElem?_cons_succ] at hi
          have hx := (hmax i x hi).1
          exact ⟨by simp only at hc ⊢; linarith, fun _ => Nat.zero_le _⟩
      · simp only [hc, if_false, Option.some.injEq] at h
        subst h
        refine ⟨j + 1, by simpa using hj, by omega, ?_⟩
        intro i x hi
        cases i with
        | zero =>
          simp only [List.getElem?_cons_zero, Option.some.injEq] at hi
          have hlt : x < u.prob := by
            have := not_le.mp hc
            rw [← hi]
            linarith
          exact ⟨le_of_lt hlt, fun he => absurd he (ne_of_lt hlt)⟩
        | succ i =>
          simp only [List.getElem?_cons_succ] at hi
          have hx := hmax i x hi
          exact ⟨hx.1, fun he => Nat.succ_le_succ (hx.2 he)⟩

/-- A non-empty vector has a winning entry. -/
theorem topPrediction_isSome (p : List ℚ) (hp : p ≠ []) : ∃ t : Entry, topPrediction p = some t := by
  cases p with
  | nil => exact absurd rfl hp
  | cons q qs =>
    have hperm := sort_perm (fun a b : Entry => b.prob - a.prob)
      (mapWithIndex (fun prob idx => Entry.mk prob idx) (q :: qs))
    have hlen := hperm.length_eq
    unfold topPrediction
    cases hl : sort (fun a b : Entry => b.prob - a.prob)
        (mapWithIndex (fun prob idx => Entry.mk prob idx) (q :: qs)) with
    | nil => rw [hl] at hlen; simp [mapWithIndex, mapFrom] at hlen
    | cons a as => exact ⟨a, by simp⟩

/-- The winning entry sits at the lowest position that holds a maximum of the vector. -/
theorem topPrediction_spec (p : List ℚ) (t : Entry) (h : topPrediction p = some t) :
    p[t.idx]? = some t.prob ∧
      ∀ i x, p[i]? = some x → x ≤ t.prob ∧ (x = t.prob → t.idx ≤ i) := by
  obtain ⟨j, hj, hidx, hmax⟩ := head_sort_entries p 0 t h
  have hji : t.idx = j := by omega
  subst hji
  exact ⟨hj, hmax⟩

/-- No entry of the label table is the empty string. -/
theorem labels_ne_empty (labelsText : String) (l : String) (h : l ∈ labels labelsText) :
    l ≠ "" := by
  unfold labels at h
  have := (List.mem_filter.mp h).2
  simpa using this


theorem toDigitsCore_append (f n : ℕ) (ds : List Char) :
    Nat.toDigitsCore 10 f n ds = Nat.toDigitsCore 10 f n [] ++ ds := by
  induction f generalizing n ds with
  | zero => simp [Nat.toDigitsCore]
  | succ f ih =>
    simp only [Nat.toDigitsCore]
    split
    · simp
    · rw [ih (n / 10) (Nat.digitChar (n % 10) :: ds), ih (n / 10) [Nat.digitChar (n % 10)]]
      simp

theorem toDigitsCore_fuel (f g n : ℕ) (hf : n < f) (hg : n < g) :
    Nat.toDigitsCore 10 f n [] = Nat.toDigitsCore 10 g n [] := by
  induction f generalizing g n with
  | zero => omega
  | succ f ih =>
    cases g with
    | zero => omega
    | succ g =>
      simp only [Nat.toDigitsCore]
      split
      · rfl
      · rename_i hne
        rw [toDigitsCore_append f, toDigitsCore_append g]
        rw [ih g (n / 10) (by omega) (by omega)]

/-- The decimal digits of `n`: one digit below ten, else the digits of `n / 10` followed by the
last digit. -/
theorem toDigits_ten (n : ℕ) :
    Nat.toDigits 10 n =
      if n < 10 then [Nat.digitChar n] else Nat.toDigits 10 (n / 10) ++ [Nat.digitChar (n % 10)] := by
  have hstep : Nat.toDigitsCore 10 (n + 1) n [] =
      if n / 10 = 0 then [Nat.digitChar (n % 10)]
      else Nat.toDigitsCore 10 n (n / 10) [Nat.digitChar (n % 10)] := rfl
  unfold Nat.toDigits
  rw [hstep]
  by_cases h : n < 10
  · have h0 : n / 10 = 0 := by omega
    simp [h, h0, Nat.mod_eq_of_lt h]
  · have h0 : ¬ n / 10 = 0 := by omega
    rw [if_neg h0, if_neg h, toDigitsCore_append,
      toDigitsCore_fuel n (n / 10 + 1) (n / 10) (by omega) (by omega)]

theorem toDigits_length_pos (n : ℕ) : 0 < (Nat.toDigits 10 n).length := by
  rw [toDigits_ten]
  split <;> simp

theorem string_mk_append (a b : List Char) : String.mk (a ++ b) = String.mk a ++ String.mk b := rfl

/-- The digits of `toFixed(2)`: the decimal representation of `n / 100`, a point, and the tens
and units digits of `n`. -/
theorem fixedDigits_eq (n : ℕ) :
    fixedDigits n = String.mk (Nat.toDigits 10 (n / 100)) ++ "." ++
      String.mk [Nat.digitChar (n / 10 % 10), Nat.digitChar (n % 10)] := by
  unfold fixedDigits
  by_cases h1 : n < 10
  · have e1 : Nat.toDigits 10 n = [Nat.digitChar n] := by rw [toDigits_ten]; simp [h1]
    have e2 : n / 100 = 0 := by omega
    have e3 : n / 10 % 10 = 0 := by omega
    have e4 : n % 10 = n := by omega
    rw [e1, e2, e3, e4]
    rfl
  · by_cases h2 : n < 100
    · have e1 : Nat.toDigits 10 n = [Nat.digitChar (n / 10), Nat.digitChar (n % 10)] := by
        rw [toDigits_ten, if_neg h1, toDigits_ten, if_pos (by omega)]
        rfl
      have e2 : n / 100 = 0 := by omega
      have e3 : n / 10 % 10 = n / 10 := by omega
      rw [e1, e2, e3]
      rfl
    · have e1 : Nat.toDigits 10 n = Nat.toDigits 10 (n / 100) ++
          [Nat.digitChar (n / 10 % 10), Nat.digitChar (n % 10)] := by
        rw [toDigits_ten n, if_neg h1, toDigits_ten (n / 10), if_neg (by omega)]
        have : n / 10 / 10 = n / 100 := by omega
        rw [this]
        simp
      have hpos := toDigits_length_pos (n / 100)
      rw [e1]
      have hk : ¬ (Nat.toDigits 10 (n / 100) ++
          [Nat.digitChar (n / 10 % 10), Nat.digitChar (n % 10)]).length ≤ 2 := by
        rw [List.length_append]
        simp only [List.length_cons, List.length_nil]
        omega
      simp only [hk, if_false]
      have hlen : (Nat.toDigits 10 (n / 100) ++
          [Nat.digitChar (n / 10 % 10), Nat.digitChar (n % 10)]).length - 2 =
          (Nat.toDigits 10 (n / 100)).length := by simp
      rw [hlen, List.take_left', List.drop_left']
      all_goals rfl

/-- For a non-negative `x` the integer of `toFixed(2)` is the nearest number of hundredths, the
larger one on a tie. -/
theorem nearestHundredths_spec (x : ℚ) (hx : 0 ≤ x) :
    ((nearestHundredths x : ℕ) : ℚ) / 100 - 1 / 200 ≤ x ∧
      x < ((nearestHundredths x : ℕ) : ℚ) / 100 + 1 / 200 := by
  unfold nearestHundredths
  have hnn : 0 ≤ ⌊x * 100 + 1 / 2⌋ := Int.floor_nonneg.mpr (by linarith)
  have hcast : ((⌊x * 100 + 1 / 2⌋.toNat : ℕ) : ℚ) = ((⌊x * 100 + 1 / 2⌋ : ℤ) : ℚ) := by
    have := Int.toNat_of_nonneg hnn
    exact_mod_cast congrArg (fun z : ℤ => (z : ℚ)) this
  rw [hcast]
  have h1 := Int.floor_le (x * 100 + 1 / 2)
  have h2 := Int.lt_floor_add_one (x * 100 + 1 / 2)
  constructor <;> linarith

theorem nearestHundredths_mono (x y : ℚ) (h : x ≤ y) :
    nearestHundredths x ≤ nearestHundredths y := by
  unfold nearestHundredths
  exact Int.toNat_le_toNat (Int.floor_le_floor (by linarith))

/-! ## Rounding to doubles -/

theorem roundHalfEven_bounds (y : ℚ) :
    y - 1 / 2 ≤ (roundHalfEven y : ℚ) ∧ (roundHalfEven y : ℚ) ≤ y + 1 / 2 := by
  have h1 := Int.floor_le y
  have h2 := Int.lt_floor_add_one y
  unfold roundHalfEven
  split_ifs with ha hb hc
  · constructor <;> linarith
  · push_cast; constructor <;> linarith
  · constructor <;> linarith
  · push_cast; constructor <;> linarith

theorem roundHalfEven_ge_int (y : ℚ) (z : ℤ) (h : (z : ℚ) ≤ y) : z ≤ roundHalfEven y := by
  have hb := (roundHalfEven_bounds y).1
  have : (z : ℚ) - 1 < (roundHalfEven y : ℚ) := by linarith
  have h2 : z - 1 < roundHalfEven y := by exact_mod_cast this
  omega

theorem roundHalfEven_le_int (y : ℚ) (z : ℤ) (h : y ≤ (z : ℚ)) : roundHalfEven y ≤ z := by
  have hb := (roundHalfEven_bounds y).2
  have : (roundHalfEven y : ℚ) < (z : ℚ) + 1 := by linarith
  have h2 : roundHalfEven y < z + 1 := by exact_mod_cast this
  omega

theorem log2Fuel_spec (fuel n : ℕ) (hf : n ≤ fuel) (hn : n ≠ 0) :
    2 ^ log2Fuel fuel n ≤ n ∧ n < 2 ^ (log2Fuel fuel n + 1) := by
  induction fuel generalizing n with
  | zero => omega
  | succ fuel ih =>
    simp only [log2Fuel]
    by_cases h2 : n < 2
    · rw [if_pos h2]
      simp only [pow_zero, zero_add, pow_one]
      omega
    · rw [if_neg h2]
      obtain ⟨h1, h3⟩ := ih (n / 2) (by omega) (by omega)
      rw [pow_succ, pow_succ]
      rw [pow_succ] at h3
      constructor <;> omega

theorem log2_quotient (N D : ℚ) (a b : ℕ) (hD : 0 < D) (ha1 : (2 : ℚ) ^ a ≤ N)
    (ha2 : N < (2 : ℚ) ^ (a + 1)) (hb1 : (2 : ℚ) ^ b ≤ D) (hb2 : D < (2 : ℚ) ^ (b + 1)) :
    (2 : ℚ) ^ ((a : ℤ) - (b : ℤ) - 1) ≤ N / D ∧ N / D < (2 : ℚ) ^ ((a : ℤ) - (b : ℤ) + 1) := by
  have h2ne : (2 : ℚ) ≠ 0 := by norm_num
  have h2 : (0 : ℚ) < 2 := by norm_num
  have hpa : (0 : ℚ) < (2 : ℚ) ^ a := pow_pos h2 _
  have hpb : (0 : ℚ) < (2 : ℚ) ^ b := pow_pos h2 _
  have hpb1 : (0 : ℚ) < (2 : ℚ) ^ (b + 1) := pow_pos h2 _
  have e1 : (2 : ℚ) ^ ((a : ℤ) - (b : ℤ) - 1) = (2 : ℚ) ^ a / (2 : ℚ) ^ (b + 1) := by
    have : (a : ℤ) - (b : ℤ) - 1 = (a : ℤ) - ((b + 1 : ℕ) : ℤ) := by push_cast; ring
    rw [this, zpow_sub₀ h2ne, zpow_natCast, zpow_natCast]
  have e2 : (2 : ℚ) ^ ((a : ℤ) - (b : ℤ) + 1) = (2 : ℚ) ^ (a + 1) / (2 : ℚ) ^ b := by
    have : (a : ℤ) - (b : ℤ) + 1 = ((a + 1 : ℕ) : ℤ) - (b : ℤ) := by push_cast; ring
    rw [this, zpow_sub₀ h2ne, zpow_natCast, zpow_natCast]
  constructor
  · rw [e1, div_le_div_iff₀ hpb1 hD]
    have hN : 0 ≤ N := le_trans (le_of_lt hpa) ha1
    nlinarith
  · rw [e2, div_lt_div_iff₀ hD hpb]
    have hN : 0 ≤ N := le_trans (le_of_lt hpa) ha1
    have hp : (0 : ℚ) < (2 : ℚ) ^ (a + 1) := pow_pos h2 _
    nlinarith

/-- The value `floorLog2 x` is the whole part of the binary logarithm of a positive `x`. -/
theorem floorLog2_spec (x : ℚ) (hx : 0 < x) :
    (2 : ℚ) ^ floorLog2 x ≤ x ∧ x < (2 : ℚ) ^ (floorLog2 x + 1) := by
  have hnum : 0 < x.num := Rat.num_pos.mpr hx
  have hn0 : x.num.natAbs ≠ 0 := by omega
  have hd0 : x.den ≠ 0 := x.den_nz
  have hnat : ((x.num.natAbs : ℕ) : ℚ) = (x.num : ℚ) := by
    rw [← Int.cast_natCast, Int.natAbs_of_nonneg (le_of_lt hnum)]
  have hxeq : (x.num.natAbs : ℚ) / (x.den : ℚ) = x := by
    rw [hnat]; exact Rat.num_div_den x
  obtain ⟨hA1, hA2⟩ := log2Fuel_spec x.num.natAbs x.num.natAbs (le_refl _) hn0
  obtain ⟨hB1, hB2⟩ := log2Fuel_spec x.den x.den (le_refl _) hd0
  have ha1 : ((2 : ℚ) ^ (log2Fuel x.num.natAbs x.num.natAbs)) ≤ (x.num.natAbs : ℚ) := by
    exact_mod_cast hA1
  have ha2 : (x.num.natAbs : ℚ) < (2 : ℚ) ^ (log2Fuel x.num.natAbs x.num.natAbs + 1) := by
    exact_mod_cast hA2
  have hb1 : ((2 : ℚ) ^ (log2Fuel x.den x.den)) ≤ (x.den : ℚ) := by
    exact_mod_cast hB1
  have hb2 : (x.den : ℚ) < (2 : ℚ) ^ (log2Fuel x.den x.den + 1) := by
    exact_mod_cast hB2
  have hdpos : (0 : ℚ) < (x.den : ℚ) := by exact_mod_cast Nat.pos_of_ne_zero hd0
  have h := log2_quotient _ _ _ _ hdpos ha1 ha2 hb1 hb2
  rw [hxeq] at h
  unfold floorLog2
  split_ifs with hc
  · exact ⟨hc, h.2⟩
  · refine ⟨h.1, ?_⟩
    have : (log2Fuel x.num.natAbs x.num.natAbs : ℤ) - (log2Fuel x.den x.den : ℤ) - 1 + 1 =
        (log2Fuel x.num.natAbs x.num.natAbs : ℤ) - (log2Fuel x.den x.den : ℤ) := by ring
    rw [this]
    exact not_le.mp hc

/-- Below `2^53` the unit in the last place is at most 1. -/
theorem ulpExponent_nonpos (x : ℚ) (hx : 0 < x) (hlt : x < 2 ^ 53) : ulpExponent x ≤ 0 := by
  have h1 := (floorLog2_spec x hx).1
  have hlt2 : (2 : ℚ) ^ floorLog2 x < (2 : ℚ) ^ (53 : ℤ) := by
    have : ((2 : ℚ) ^ (53 : ℤ)) = 2 ^ 53 := by norm_num
    rw [this]; exact lt_of_le_of_lt h1 hlt
  have hk : floorLog2 x < 53 := (zpow_lt_zpow_iff_right₀ (by norm_num : (1 : ℚ) < 2)).mp hlt2
  unfold ulpExponent
  omega

theorem roundDouble_of_nonneg (x : ℚ) (hx : 0 ≤ x) :
    roundDouble x = (roundHalfEven (x / 2 ^ ulpExponent x) : ℚ) * 2 ^ ulpExponent x := by
  unfold roundDouble
  rw [if_neg (not_lt.mpr hx)]

/-- Rounding to a double keeps a positive number below `2^53` between the whole numbers that
bound it. -/
theorem roundDouble_between (x : ℚ) (a b : ℕ) (hx : 0 < x) (hlt : x < 2 ^ 53)
    (ha : (a : ℚ) ≤ x) (hb : x ≤ (b : ℚ)) :
    (a : ℚ) ≤ roundDouble x ∧ roundDouble x ≤ (b : ℚ) := by
  obtain ⟨K, hK⟩ := Int.exists_eq_neg_ofNat (ulpExponent_nonpos x hx hlt)
  rw [roundDouble_of_nonneg x (le_of_lt hx), hK, zpow_neg, zpow_natCast]
  have hp : (0 : ℚ) < (2 : ℚ) ^ K := pow_pos (by norm_num) K
  have hdiv : x / ((2 : ℚ) ^ K)⁻¹ = x * 2 ^ K := by rw [div_inv_eq_mul]
  rw [hdiv]
  have hA : ((a * 2 ^ K : ℕ) : ℤ) ≤ roundHalfEven (x * 2 ^ K) := by
    apply roundHalfEven_ge_int
    push_cast
    exact mul_le_mul_of_nonneg_right ha (le_of_lt hp)
  have hB : roundHalfEven (x * 2 ^ K) ≤ ((b * 2 ^ K : ℕ) : ℤ) := by
    apply roundHalfEven_le_int
    push_cast
    exact mul_le_mul_of_nonneg_right hb (le_of_lt hp)
  have hA2 : ((a : ℚ) * 2 ^ K) ≤ (roundHalfEven (x * 2 ^ K) : ℚ) := by exact_mod_cast hA
  have hB2 : (roundHalfEven (x * 2 ^ K) : ℚ) ≤ ((b : ℚ) * 2 ^ K) := by exact_mod_cast hB
  have hinv : (0 : ℚ) < ((2 : ℚ) ^ K)⁻¹ := inv_pos.mpr hp
  constructor
  · calc (a : ℚ) = (a : ℚ) * 2 ^ K * ((2 : ℚ) ^ K)⁻¹ := by field_simp
      _ ≤ (roundHalfEven (x * 2 ^ K) : ℚ) * ((2 : ℚ) ^ K)⁻¹ :=
        mul_le_mul_of_nonneg_right hA2 (le_of_lt hinv)
  · calc (roundHalfEven (x * 2 ^ K) : ℚ) * ((2 : ℚ) ^ K)⁻¹
        ≤ (b : ℚ) * 2 ^ K * ((2 : ℚ) ^ K)⁻¹ := mul_le_mul_of_nonneg_right hB2 (le_of_lt hinv)
      _ = (b : ℚ) := by field_simp

theorem roundDouble_zero : roundDouble 0 = 0 := by decide!

/-- The same bounds from 0 on. -/
theorem roundDouble_between_nonneg (x : ℚ) (b : ℕ) (hx : 0 ≤ x) (hlt : x < 2 ^ 53)
    (hb : x ≤ (b : ℚ)) : 0 ≤ roundDouble x ∧ roundDouble x ≤ (b : ℚ) := by
  rcases eq_or_lt_of_le hx with h0 | hpos
  · rw [← h0, roundDouble_zero]
    exact ⟨le_refl _, by rw [← h0] at hb; exact hb⟩
  · have h := roundDouble_between x 0 b hpos hlt (by simpa using hx) hb
    simpa using h

theorem Draw.val_nonneg (r : Draw) : 0 ≤ r.val := by
  unfold Draw.val
  positivity

theorem Draw.val_lt_one (r : Draw) : r.val < 1 := by
  unfold Draw.val
  have hp : (0 : ℚ) < (2 : ℚ) ^ r.shift := pow_pos (by norm_num) _
  rw [div_lt_one hp]
  exact_mod_cast r.lt_one

/-- A double below 1 is at most `1 - 2^-53`. -/
theorem Draw.val_le (r : Draw) : r.val ≤ 1 - 1 / 2 ^ 53 := by
  unfold Draw.val
  have hp : (0 : ℚ) < (2 : ℚ) ^ r.shift := pow_pos (by norm_num) _
  by_cases hs : r.shift ≤ 53
  · have h1 : r.mant + 1 ≤ 2 ^ r.shift := r.lt_one
    have h1q : (r.mant : ℚ) + 1 ≤ 2 ^ r.shift := by exact_mod_cast h1
    have hle : (2 : ℚ) ^ r.shift ≤ 2 ^ 53 := by
      exact pow_le_pow_right₀ (by norm_num) hs
    rw [div_le_iff₀ hp]
    have : (1 : ℚ) / 2 ^ 53 * 2 ^ r.shift ≤ 1 := by
      rw [div_mul_eq_mul_div, one_mul, div_le_one (by positivity)]
      exact hle
    nlinarith
  · have hm : (r.mant : ℚ) < 2 ^ 53 := by exact_mod_cast r.mant_lt
    have hge : (2 : ℚ) ^ 54 ≤ 2 ^ r.shift := by
      exact pow_le_pow_right₀ (by norm_num) (by omega)
    rw [div_le_iff₀ hp]
    have h53 : (2 : ℚ) ^ 54 = 2 * 2 ^ 53 := by norm_num
    have : ((1 : ℚ) - 1 / 2 ^ 53) ≥ 1 / 2 := by norm_num
    nlinarith

/-- The double product of a draw with 5 is less than 5. -/
theorem roundDouble_five_lt (r : Draw) : roundDouble (r.val * 5) < 5 := by
  have h0 := r.val_nonneg
  have hle := r.val_le
  by_cases h4 : r.val * 5 < 4
  · have h := roundDouble_between_nonneg (r.val * 5) 4 (by linarith)
      (by norm_num; linarith) (by push_cast; linarith)
    have := h.2
    push_cast at this
    linarith
  · have hx4 : (4 : ℚ) ≤ r.val * 5 := not_lt.mp h4
    have hpos : (0 : ℚ) < r.val * 5 := by linarith
    have hspec := floorLog2_spec (r.val * 5) hpos
    have hk2 : floorLog2 (r.val * 5) = 2 := by
      have hlo : (2 : ℤ) ≤ floorLog2 (r.val * 5) := by
        have : (2 : ℚ) ^ (2 : ℤ) < (2 : ℚ) ^ (floorLog2 (r.val * 5) + 1) := by
          have e : (2 : ℚ) ^ (2 : ℤ) = 4 := by norm_num
          rw [e]; exact lt_of_le_of_lt hx4 hspec.2
        have := (zpow_lt_zpow_iff_right₀ (by norm_num : (1 : ℚ) < 2)).mp this
        omega
      have hhi : floorLog2 (r.val * 5) < 3 := by
        have : (2 : ℚ) ^ floorLog2 (r.val * 5) < (2 : ℚ) ^ (3 : ℤ) := by
          have e : (2 : ℚ) ^ (3 : ℤ) = 8 := by norm_num
          rw [e]
          have : r.val * 5 < 8 := by
            have : (1 : ℚ) - 1 / 2 ^ 53 < 1 := by norm_num
            linarith
          exact lt_of_le_of_lt hspec.1 this
        exact (zpow_lt_zpow_iff_right₀ (by norm_num : (1 : ℚ) < 2)).mp this
      omega
    have hu : ulpExponent (r.val * 5) = -50 := by
      unfold ulpExponent
      rw [hk2]
      rfl
    rw [roundDouble_of_nonneg _ (le_of_lt hpos), hu]
    have hz : (2 : ℚ) ^ (-50 : ℤ) = 1 / 2 ^ 50 := by
      rw [zpow_neg, one_div]; norm_cast
    rw [hz]
    have hdiv : r.val * 5 / (1 / 2 ^ 50) = r.val * 5 * 2 ^ 50 := by
      rw [div_div_eq_mul_div, div_one]
    rw [hdiv]
    have hb := (roundHalfEven_bounds (r.val * 5 * 2 ^ 50)).2
    have hint : roundHalfEven (r.val * 5 * 2 ^ 50) ≤ 5 * 2 ^ 50 - 1 := by
      have h1 : (roundHalfEven (r.val * 5 * 2 ^ 50) : ℚ) < 5 * 2 ^ 50 := by
        have hc : (0 : ℚ) ≤ 5 * 2 ^ 50 := by norm_num
        have hm : r.val * (5 * 2 ^ 50) ≤ (1 - 1 / 2 ^ 53) * (5 * 2 ^ 50) :=
          mul_le_mul_of_nonneg_right hle hc
        have e : ((1 : ℚ) - 1 / 2 ^ 53) * (5 * 2 ^ 50) = 5 * 2 ^ 50 - 5 / 8 := by norm_num
        rw [e] at hm
        have e3 : r.val * 5 * 2 ^ 50 = r.val * (5 * 2 ^ 50) := by ring
        rw [e3] at hb
        have hlt : r.val * (5 * 2 ^ 50) + 1 / 2 < 5 * 2 ^ 50 := by
          have : ((5 : ℚ) * 2 ^ 50 - 5 / 8) + 1 / 2 < 5 * 2 ^ 50 := by norm_num
          exact lt_of_le_of_lt (add_le_add_right hm _) this
        rw [e3]
        exact lt_of_le_of_lt hb hlt
      have h2 : roundHalfEven (r.val * 5 * 2 ^ 50) < 5 * 2 ^ 50 := by exact_mod_cast h1
      omega
    have hq : (roundHalfEven (r.val * 5 * 2 ^ 50) : ℚ) ≤ 5 * 2 ^ 50 - 1 := by
      exact_mod_cast hint
    have hpp : (0 : ℚ) < 1 / 2 ^ 50 := by positivity
    have : (roundHalfEven (r.val * 5 * 2 ^ 50) : ℚ) * (1 / 2 ^ 50) ≤
        (5 * 2 ^ 50 - 1) * (1 / 2 ^ 50) := mul_le_mul_of_nonneg_right hq (le_of_lt hpp)
    have e2 : ((5 : ℚ) * 2 ^ 50 - 1) * (1 / 2 ^ 50) = 5 - 1 / 2 ^ 50 := by norm_num
    have : (0 : ℚ) < 1 / 2 ^ 50 := hpp
    linarith

/-- The index of the demo label is within the array. -/
theorem randomIndex_lt (r : Draw) : randomIndex r < demoLabels.length := by
  have h5 := roundDouble_five_lt r
  have hlen : demoLabels.length = 5 := rfl
  have hcast : ((demoLabels.length : ℕ) : ℚ) = 5 := by rw [hlen]; norm_num
  unfold randomIndex
  rw [hcast, hlen]
  have hfl : ⌊roundDouble (r.val * 5)⌋ < 5 := by
    rw [Int.floor_lt]
    exact_mod_cast h5
  omega

/-- The demo label is an element of `demoLabels`. -/
theorem randomLabel_mem (r : Draw) : randomLabel r ∈ demoLabels := by
  unfold randomLabel
  rw [dif_pos (randomIndex_lt r)]
  exact List.get_mem _ _ _

/-- The double sum `85 + r * 14` of line 101 is at least 85 and at most 99. -/
theorem confidenceSum_bounds (r : Draw) :
    85 ≤ roundDouble (85 + roundDouble (r.val * 14)) ∧
      roundDouble (85 + roundDouble (r.val * 14)) ≤ 99 := by
  have h0 := r.val_nonneg
  have h1 := r.val_lt_one
  have hp := roundDouble_between_nonneg (r.val * 14) 14 (by linarith)
    (by norm_num; linarith) (by push_cast; linarith)
  have hp2 : roundDouble (r.val * 14) ≤ 14 := by exact_mod_cast hp.2
  have hv := roundDouble_between (85 + roundDouble (r.val * 14)) 85 99 (by linarith [hp.1])
    (by norm_num; linarith [hp.1]) (by push_cast; linarith [hp.1]) (by push_cast; linarith)
  exact ⟨by exact_mod_cast hv.1, by exact_mod_cast hv.2⟩

/-- Below `10^21` in magnitude `toFixed(2)` is the sign followed by the digits of the nearest
number of hundredths of the magnitude. -/
theorem toFixed_eq (numberToString : ℚ → String) (x : ℚ) (h : |x| < 10 ^ 21) :
    toFixed numberToString x =
      (if x < 0 then "-" else "") ++ fixedDigits (nearestHundredths |x|) := by
  unfold toFixed
  by_cases hx : x < 0
  · have habs : |x| = -x := abs_of_neg hx
    simp only [hx, if_true]
    rw [habs] at h ⊢
    rw [if_neg (not_le.mpr h)]
  · have habs : |x| = x := abs_of_nonneg (not_lt.mp hx)
    simp only [hx, if_false]
    rw [habs] at h ⊢
    rw [if_neg (not_le.mpr h)]

/-- What `rankedResult` returns once the winning entry is known. -/
theorem rankedResult_eq (numberToString : ℚ → String) (p : List ℚ) (labelsText : String)
    (t : Entry) (ht : topPrediction p = some t) :
    rankedResult numberToString p labelsText =
      some { label := jsOr (labels labelsText)[t.idx]? "Unknown"
             confidence := toFixed numberToString (t.prob * 100) } := by
  unfold rankedResult
  rw [ht]

/-- An entry of the label table is returned by `||` as it is. -/
theorem jsOr_labels (labelsText : String) (i : ℕ) (l : String)
    (h : (labels labelsText)[i]? = some l) : jsOr (labels labelsText)[i]? "Unknown" = l := by
  have hmem : l ∈ labels labelsText := List.getElem?_mem h
  have hne := labels_ne_empty labelsText l hmem
  rw [h]
  simp [jsOr, hne]

/-- While `modelLoaded` is false no model handle exists. -/
theorem reachable_modelRef (numberToString : ℚ → String) (s : Session)
    (hs : Reachable numberToString s) : s.modelLoaded = false → s.modelRef = none := by
  induction hs with
  | init => intro _; rfl
  | next s e _ he ih =>
    cases e with
    | loadSettled outcome =>
      cases outcome with
      | none => intro h; simp [step, loadModel] at h
      | some m => intro h; simp [step, loadModel] at h
    | fileChange file =>
      cases file with
      | none => exact ih
      | some f =>
        by_cases hf : f.type.startsWith "image/" = true
        · simpa [step, handleFileSelect, hf] using ih
        · simpa [step, handleFileSelect, hf] using ih
    | readerLoad result => exact ih
    | analyzeClick =>
      by_cases ht : truthy s.selectedImage = true
      · simpa [step, analyzeStart, ht] using ih
      · simpa [step, analyzeStart, ht] using ih
    | analyzeSettled a =>
      cases ho : tryBlock numberToString a s.modelRef with
      | real r => simpa [step, analyzeFinish, ho] using ih
      | demo r => simpa [step, analyzeFinish, ho] using ih
      | thrown => simpa [step, analyzeFinish, ho] using ih

theorem empty_append (t : String) : "" ++ t = t := by
  apply String.ext
  rfl

/-- What `analyzeImage` does to a session with a selected image. -/
theorem analyzeImage_eq (numberToString : ℚ → String) (a : Analysis) (s : Session)
    (hi : truthy s.selectedImage = true) :
    analyzeImage numberToString a s =
      analyzeFinish numberToString a { s with isLoading := true } := by
  simp [analyzeImage, analyzeStart, hi]

/-- With a model handle the `try` block throws or ends with the result ranked from the vector and
the label text. -/
theorem tryBlock_some (numberToString : ℚ → String) (a : Analysis) (m : Model) :
    tryBlock numberToString a (some m) = Outcome.thrown ∨
      ∃ p txt r, a.imageLoads = true ∧ a.tensorReady = true ∧ a.predictions = some p ∧
        a.labelsText = some txt ∧ rankedResult numberToString p txt = some r ∧
        tryBlock numberToString a (some m) = Outcome.real r := by
  cases hl : a.imageLoads with
  | false => left; simp [tryBlock, hl]
  | true =>
    cases ht : a.tensorReady with
    | false => left; simp [tryBlock, hl, ht]
    | true =>
      cases hp : a.predictions with
      | none => left; simp [tryBlock, hl, ht, hp]
      | some p =>
        cases htx : a.labelsText with
        | none => left; simp [tryBlock, hl, ht, hp, htx]
        | some txt =>
          cases hr : rankedResult numberToString p txt with
          | none => left; simp [tryBlock, hl, ht, hp, htx, hr]
          | some r =>
            right
            exact ⟨p, txt, r, rfl, rfl, rfl, rfl, hr, by simp [tryBlock, hl, ht, hp, htx, hr]⟩

/-- With a model handle the `try` block does not end with the demo result. -/
theorem tryBlock_some_ne_demo (numberToString : ℚ → String) (a : Analysis) (m : Model)
    (r : PredictionResult) : tryBlock numberToString a (some m) ≠ Outcome.demo r := by
  intro h
  rcases tryBlock_some numberToString a m with ht | ⟨p, txt, r0, _, _, _, _, _, hr⟩
  · rw [ht] at h; cases h
  · rw [hr] at h; cases h

/-! ## The claims -/

/-- C1: for every non-empty probability vector the entry chosen by map, sort and `[0]` has an
index that holds a value at least as large as the value at every index, and when that index is
within the label table the reported label is the entry of the table at it. -/
theorem C1_ranking_selects_maximum (numberToString : ℚ → String) (p : List ℚ)
    (labelsText : String) (hp : p ≠ []) :
    ∃ t : Entry, topPrediction p = some t ∧ p[t.idx]? = some t.prob ∧
      (∀ (j : ℕ) (x : ℚ), p[j]? = some x → x ≤ t.prob) ∧
      ∀ l, (labels labelsText)[t.idx]? = some l →
        rankedResult numberToString p labelsText =
          some { label := l, confidence := toFixed numberToString (t.prob * 100) } := by
  obtain ⟨t, ht⟩ := topPrediction_isSome p hp
  obtain ⟨hval, hmax⟩ := topPrediction_spec p t ht
  refine ⟨t, ht, hval, fun j x hj => (hmax j x hj).1, ?_⟩
  intro l hl
  rw [rankedResult_eq numberToString p labelsText t ht, jsOr_labels labelsText t.idx l hl]

/-- C1 at the vector 0.1, 0.7, 0.2 with the labels cat, dog, bird: label dog, confidence
70.00. -/
theorem C1_ranking_witness :
    rankedResult exponentForm [1 / 10, 7 / 10, 2 / 10] "cat\ndog\nbird" =
        some { label := "dog", confidence := "70.00" } ∧
      ∃ t : Entry, topPrediction [1 / 10, 7 / 10, 2 / 10] = some t ∧
        ([1 / 10, 7 / 10, 2 / 10] : List ℚ)[t.idx]? = some t.prob ∧
        (∀ (j : ℕ) (x : ℚ), ([1 / 10, 7 / 10, 2 / 10] : List ℚ)[j]? = some x → x ≤ t.prob) ∧
        ∀ l, (labels "cat\ndog\nbird")[t.idx]? = some l →
          rankedResult exponentForm [1 / 10, 7 / 10, 2 / 10] "cat\ndog\nbird" =
            some { label := l, confidence := toFixed exponentForm (t.prob * 100) } :=
  ⟨by decide!,
    C1_ranking_selects_maximum exponentForm [1 / 10, 7 / 10, 2 / 10] "cat\ndog\nbird"
      (List.cons_ne_nil _ _)⟩

/-- C2: for every non-empty probability vector the winning index holds the maximum and is the
lowest of the indices that hold it. -/
theorem C2_tie_break_lowest_index (p : List ℚ) (hp : p ≠ []) :
    ∃ t : Entry, topPrediction p = some t ∧ p[t.idx]? = some t.prob ∧
      (∀ (j : ℕ) (x : ℚ), p[j]? = some x → x ≤ t.prob) ∧
      ∀ j : ℕ, p[j]? = some t.prob → t.idx ≤ j := by
  obtain ⟨t, ht⟩ := topPrediction_isSome p hp
  obtain ⟨hval, hmax⟩ := topPrediction_spec p t ht
  exact ⟨t, ht, hval, fun j x hj => (hmax j x hj).1, fun j hj => (hmax j t.prob hj).2 rfl⟩

/-- C2 at the vector 0.5, 0.5: the winning index is 0. -/
theorem C2_tie_break_witness :
    (topPrediction [1 / 2, 1 / 2]).map Entry.idx = some 0 ∧
      ∃ t : Entry, topPrediction [1 / 2, 1 / 2] = some t ∧
        ([1 / 2, 1 / 2] : List ℚ)[t.idx]? = some t.prob ∧
        (∀ (j : ℕ) (x : ℚ), ([1 / 2, 1 / 2] : List ℚ)[j]? = some x → x ≤ t.prob) ∧
        ∀ j : ℕ, ([1 / 2, 1 / 2] : List ℚ)[j]? = some t.prob → t.idx ≤ j :=
  ⟨by decide!, C2_tie_break_lowest_index [1 / 2, 1 / 2] (List.cons_ne_nil _ _)⟩

/-- C3: for every probability vector with a winning entry and every label text, a winning index
that is not less than the length of the label table gives a result whose label is the string
Unknown, and a winning index within the table gives the entry of the table, which is never
empty, so that Unknown is substituted only out of bounds. -/
theorem C3_unknown_index_guard (numberToString : ℚ → String) (p : List ℚ)
    (labelsText : String) (t : Entry) (ht : topPrediction p = some t) :
    ((labels labelsText).length ≤ t.idx →
        rankedResult numberToString p labelsText =
          some { label := "Unknown", confidence := toFixed numberToString (t.prob * 100) }) ∧
      (t.idx < (labels labelsText).length →
        ∃ l, (labels labelsText)[t.idx]? = some l ∧ l ≠ "" ∧
          rankedResult numberToString p labelsText =
            some { label := l, confidence := toFixed numberToString (t.prob * 100) }) := by
  constructor
  · intro hlen
    have hnone : (labels labelsText)[t.idx]? = none := List.getElem?_eq_none hlen
    rw [rankedResult_eq numberToString p labelsText t ht, hnone]
    rfl
  · intro hlt
    have hsome : (labels labelsText)[t.idx]? = some ((labels labelsText)[t.idx]) :=
      List.getElem?_eq_getElem hlt
    refine ⟨_, hsome, labels_ne_empty labelsText _ (List.getElem?_mem hsome), ?_⟩
    rw [rankedResult_eq numberToString p labelsText t ht, jsOr_labels labelsText t.idx _ hsome]

/-- C3 at the vector 0.1, 0.9 with a label text of one name and two empty lines: the winning
index 1 is outside the table of one entry and the label is Unknown. -/
theorem C3_unknown_index_witness :
    labels "cat\n\n" = ["cat"] ∧
      (((labels "cat\n\n").length ≤ (Entry.mk (9 / 10) 1).idx →
        rankedResult exponentForm [1 / 10, 9 / 10] "cat\n\n" =
          some { label := "Unknown"
                 confidence := toFixed exponentForm ((Entry.mk (9 / 10) 1).prob * 100) }) ∧
      ((Entry.mk (9 / 10) 1).idx < (labels "cat\n\n").length →
        ∃ l, (labels "cat\n\n")[(Entry.mk (9 / 10) 1).idx]? = some l ∧ l ≠ "" ∧
          rankedResult exponentForm [1 / 10, 9 / 10] "cat\n\n" =
            some { label := l
                   confidence := toFixed exponentForm ((Entry.mk (9 / 10) 1).prob * 100) })) :=
  ⟨by decide!,
    C3_unknown_index_guard exponentForm [1 / 10, 9 / 10] "cat\n\n" (Entry.mk (9 / 10) 1)
      (by decide!)⟩


/-- C4 fails as stated: for the draw 4095/4096 the sum 85 + 14 r is 98.99658203125, computed
without rounding, and the confidence is the string 99.00, which is not less than 99.00; for the
draw `1 - 2^-52` the double sum itself is 99. -/
theorem C4_confidence_reaches_99 :
    nearOneDraw.val < 1 ∧ randomConfidence exponentForm nearOneDraw = "99.00" ∧
      (tryBlock exponentForm { decodedRun with confidenceDraw := nearOneDraw } none =
        Outcome.demo { label := "Siamese cat, Siamese", confidence := "99.00" }) ∧
      ¬ ((nearestHundredths (roundDouble (85 + roundDouble (nearOneDraw.val * 14))) : ℚ) / 100
        < 99) ∧
      roundDouble (85 + roundDouble (lastDraw.val * 14)) = 99 ∧
      randomConfidence exponentForm lastDraw = "99.00" := by
  refine ⟨by decide!, by decide!, by decide!, ?_, by decide!, by decide!⟩
  have h : nearestHundredths (roundDouble (85 + roundDouble (nearOneDraw.val * 14))) = 9900 := by
    decide!
  rw [h]
  norm_num

/-- C4 as amended: in the fallback, once the image has decoded, the label is one of the five
demo labels, the double sum 85 + 14 r of line 101 is at least 85 and at most 99, and the
confidence is the number of hundredths nearest to that sum, which lies between 85.00 and 99.00,
both included. -/
theorem C4_fallback_closed_range (numberToString : ℚ → String) (a : Analysis)
    (ha : a.imageLoads = true) :
    ∃ (r : PredictionResult) (n : ℕ), tryBlock numberToString a none = Outcome.demo r ∧
      r.label ∈ demoLabels ∧ 8500 ≤ n ∧ n ≤ 9900 ∧
      r.confidence = String.mk (Nat.toDigits 10 (n / 100)) ++ "." ++
        String.mk [Nat.digitChar (n / 10 % 10), Nat.digitChar (n % 10)] ∧
      (n : ℚ) / 100 - 1 / 200 ≤ roundDouble (85 + roundDouble (a.confidenceDraw.val * 14)) ∧
      roundDouble (85 + roundDouble (a.confidenceDraw.val * 14)) < (n : ℚ) / 100 + 1 / 200 ∧
      85 ≤ roundDouble (85 + roundDouble (a.confidenceDraw.val * 14)) ∧
      roundDouble (85 + roundDouble (a.confidenceDraw.val * 14)) ≤ 99 := by
  obtain ⟨hv85, hv99⟩ := confidenceSum_bounds a.confidenceDraw
  have hx0 : (0 : ℚ) ≤ roundDouble (85 + roundDouble (a.confidenceDraw.val * 14)) := by
    linarith
  have habs : |roundDouble (85 + roundDouble (a.confidenceDraw.val * 14))| =
      roundDouble (85 + roundDouble (a.confidenceDraw.val * 14)) := abs_of_nonneg hx0
  have hbig : |roundDouble (85 + roundDouble (a.confidenceDraw.val * 14))| < 10 ^ 21 := by
    rw [habs]
    have : (99 : ℚ) < 10 ^ 21 := by norm_num
    linarith
  have hlo : nearestHundredths 85 ≤
      nearestHundredths (roundDouble (85 + roundDouble (a.confidenceDraw.val * 14))) :=
    nearestHundredths_mono _ _ hv85
  have hhi : nearestHundredths (roundDouble (85 + roundDouble (a.confidenceDraw.val * 14))) ≤
      nearestHundredths 99 := nearestHundredths_mono _ _ hv99
  have e85 : nearestHundredths 85 = 8500 := by decide!
  have e99 : nearestHundredths 99 = 9900 := by decide!
  have hspec := nearestHundredths_spec
    (roundDouble (85 + roundDouble (a.confidenceDraw.val * 14))) hx0
  refine ⟨{ label := randomLabel a.labelDraw
            confidence := randomConfidence numberToString a.confidenceDraw },
    nearestHundredths (roundDouble (85 + roundDouble (a.confidenceDraw.val * 14))),
    ?_, randomLabel_mem a.labelDraw, by omega, by omega, ?_, hspec.1, hspec.2, hv85, hv99⟩
  · simp only [tryBlock, ha, if_true]
  · show randomConfidence numberToString a.confidenceDraw = _
    unfold randomConfidence
    rw [toFixed_eq numberToString _ hbig, habs, if_neg (not_lt.mpr hx0), empty_append,
      fixedDigits_eq]

/-- C4 as amended, at a run whose first draw is the double nearest to 0.6 and whose second draw
is `1608428438347 / 2^52`: the double product 0.6 * 5 is 3 and the label is the fourth one, the
double sum lies below 85.005 and the confidence is 85.00. -/
theorem C4_fallback_witness :
    tryBlock exponentForm roundedRun none =
        Outcome.demo { label := "Tiger cat", confidence := "85.00" } ∧
      ∃ (r : PredictionResult) (n : ℕ), tryBlock exponentForm roundedRun none = Outcome.demo r ∧
        r.label ∈ demoLabels ∧ 8500 ≤ n ∧ n ≤ 9900 ∧
        r.confidence = String.mk (Nat.toDigits 10 (n / 100)) ++ "." ++
          String.mk [Nat.digitChar (n / 10 % 10), Nat.digitChar (n % 10)] ∧
        (n : ℚ) / 100 - 1 / 200 ≤
          roundDouble (85 + roundDouble (roundedRun.confidenceDraw.val * 14)) ∧
        roundDouble (85 + roundDouble (roundedRun.confidenceDraw.val * 14)) <
          (n : ℚ) / 100 + 1 / 200 ∧
        85 ≤ roundDouble (85 + roundDouble (roundedRun.confidenceDraw.val * 14)) ∧
        roundDouble (85 + roundDouble (roundedRun.confidenceDraw.val * 14)) ≤ 99 :=
  ⟨by decide!, C4_fallback_closed_range exponentForm roundedRun rfl⟩

/-- C5: for every winning value below `10^19` in magnitude, which every probability is, the
reported confidence is the sign, the decimal digits of the whole part, a point and exactly two
digits, of the number of hundredths nearest to the value times 100 (the larger one on a tie);
for a value from 0 to 1 that number is at most 100.00. -/
theorem C5_confidence_two_decimals (numberToString : ℚ → String) (p : List ℚ)
    (labelsText : String) (t : Entry) (ht : topPrediction p = some t)
    (hq : |t.prob * 100| < 10 ^ 21) :
    ∃ (r : PredictionResult) (n : ℕ), rankedResult numberToString p labelsText = some r ∧
      (n : ℚ) / 100 - 1 / 200 ≤ |t.prob * 100| ∧ |t.prob * 100| < (n : ℚ) / 100 + 1 / 200 ∧
      r.confidence = (if t.prob * 100 < 0 then "-" else "") ++
        (String.mk (Nat.toDigits 10 (n / 100)) ++ "." ++
          String.mk [Nat.digitChar (n / 10 % 10), Nat.digitChar (n % 10)]) ∧
      (0 ≤ t.prob → t.prob ≤ 1 → t.prob * 100 = |t.prob * 100| ∧ n ≤ 10000) := by
  have hspec := nearestHundredths_spec |t.prob * 100| (abs_nonneg _)
  refine ⟨_, nearestHundredths |t.prob * 100|,
    rankedResult_eq numberToString p labelsText t ht, hspec.1, hspec.2, ?_, ?_⟩
  · show toFixed numberToString (t.prob * 100) = _
    rw [toFixed_eq numberToString _ hq, fixedDigits_eq]
  · intro h0 h1
    have habs : |t.prob * 100| = t.prob * 100 := abs_of_nonneg (by linarith)
    have hhi : nearestHundredths |t.prob * 100| ≤ nearestHundredths 100 :=
      nearestHundredths_mono _ _ (by rw [habs]; linarith)
    have e100 : nearestHundredths 100 = 10000 := by decide!
    exact ⟨habs.symm, by omega⟩

/-- C5 at the vector 0.1, 0.7, 0.2: the confidence is 70.00. -/
theorem C5_confidence_witness :
    (rankedResult exponentForm [1 / 10, 7 / 10, 2 / 10] "cat\ndog\nbird").map
        PredictionResult.confidence = some "70.00" ∧
      ∃ (r : PredictionResult) (n : ℕ),
        rankedResult exponentForm [1 / 10, 7 / 10, 2 / 10] "cat\ndog\nbird" = some r ∧
        (n : ℚ) / 100 - 1 / 200 ≤ |(Entry.mk (7 / 10) 1).prob * 100| ∧
        |(Entry.mk (7 / 10) 1).prob * 100| < (n : ℚ) / 100 + 1 / 200 ∧
        r.confidence = (if (Entry.mk (7 / 10) 1).prob * 100 < 0 then "-" else "") ++
          (String.mk (Nat.toDigits 10 (n / 100)) ++ "." ++
            String.mk [Nat.digitChar (n / 10 % 10), Nat.digitChar (n % 10)]) ∧
        (0 ≤ (Entry.mk (7 / 10) 1).prob → (Entry.mk (7 / 10) 1).prob ≤ 1 →
          (Entry.mk (7 / 10) 1).prob * 100 = |(Entry.mk (7 / 10) 1).prob * 100| ∧ n ≤ 10000) :=
  ⟨by decide!,
    C5_confidence_two_decimals exponentForm [1 / 10, 7 / 10, 2 / 10] "cat\ndog\nbird"
      (Entry.mk (7 / 10) 1) (by decide!) (by norm_num [abs_of_nonneg])⟩

/-- C6 fails as stated: after an image was chosen and read while the model is still being
loaded (`modelLoaded` is false and `loadModel` has raised no alert), the analyze button is
enabled and `analyzeImage` sets a demo result. -/
theorem C6_demo_result_while_loading :
    Reachable exponentForm imageChosen ∧ imageChosen.modelLoaded = false ∧
      imageChosen.modelRef = none ∧ analyzeDisabled imageChosen = false ∧
      tryBlock exponentForm decodedRun imageChosen.modelRef =
        Outcome.demo { label := "Siamese cat, Siamese", confidence := "85.00" } ∧
      analyzeImage exponentForm decodedRun imageChosen =
        ({ imageChosen with
            predictions := some { label := "Siamese cat, Siamese", confidence := "85.00" } },
          []) :=
  ⟨Reachable.next _ (Event.readerLoad dataUrl)
      (Reachable.next _ (Event.fileChange (some pngFile)) Reachable.init rfl) rfl,
    by decide!, by decide!, by decide!, by decide!, by decide!⟩

/-- C6 as amended: in every reachable session state with a selected image, `analyzeImage` sets
the random demo result exactly when the image decodes and no model handle exists: then it ends
in the `else` branch and sets `predictions` to the demo label and demo confidence; otherwise it
never ends in that branch, and it raises the analysis alert or sets the result ranked from the
vector of the model. No handle exists while the model is still being loaded, and the `catch`
branch of `loadModel` leaves the handle as it is. -/
theorem C6_fallback_iff_no_model_handle (numberToString : ℚ → String) (s : Session)
    (a : Analysis) (hs : Reachable numberToString s) (hi : truthy s.selectedImage = true) :
    (a.imageLoads = true → s.modelRef = none →
        tryBlock numberToString a s.modelRef =
          Outcome.demo { label := randomLabel a.labelDraw
                         confidence := randomConfidence numberToString a.confidenceDraw } ∧
        analyzeImage numberToString a s =
          ({ s with
              predictions := some { label := randomLabel a.labelDraw
                                    confidence :=
                                      randomConfidence numberToString a.confidenceDraw }
              isLoading := false }, [])) ∧
      (¬ (a.imageLoads = true ∧ s.modelRef = none) →
        (∀ r, tryBlock numberToString a s.modelRef ≠ Outcome.demo r) ∧
        (analyzeImage numberToString a s = ({ s with isLoading := false }, [analysisFailedAlert]) ∨
          ∃ p txt r, a.predictions = some p ∧ a.labelsText = some txt ∧
            rankedResult numberToString p txt = some r ∧
            analyzeImage numberToString a s =
              ({ s with predictions := some r, isLoading := false }, []))) ∧
      (s.modelLoaded = false → s.modelRef = none) ∧
      (loadModel none s).1.modelRef = s.modelRef ∧ (loadModel none s).1.modelLoaded = true := by
  refine ⟨?_, ?_, reachable_modelRef numberToString s hs, rfl, rfl⟩
  · intro hl hm
    have ht : tryBlock numberToString a s.modelRef =
        Outcome.demo { label := randomLabel a.labelDraw
                       confidence := randomConfidence numberToString a.confidenceDraw } := by
      rw [hm]
      simp only [tryBlock, hl, if_true]
    refine ⟨ht, ?_⟩
    rw [analyzeImage_eq _ _ _ hi]
    simp only [analyzeFinish, ht]
  · intro hne
    rw [analyzeImage_eq _ _ _ hi]
    cases hm : s.modelRef with
    | none =>
      have hl : a.imageLoads = false := by
        cases hla : a.imageLoads with
        | false => rfl
        | true => exact absurd ⟨hla, hm⟩ hne
      have ht : tryBlock numberToString a none = Outcome.thrown := by
        simp [tryBlock, hl]
      refine ⟨fun r hr => ?_, Or.inl ?_⟩
      · rw [ht] at hr; cases hr
      · simp only [analyzeFinish, hm, ht]
    | some m =>
      refine ⟨fun r => tryBlock_some_ne_demo numberToString a m r, ?_⟩
      rcases tryBlock_some numberToString a m with ht | ⟨p, txt, r, _, _, hp, htxt, hr, ho⟩
      · left
        simp only [analyzeFinish, hm, ht]
      · right
        refine ⟨p, txt, r, hp, htxt, hr, ?_⟩
        simp only [analyzeFinish, hm, ho]

/-- C6 as amended, at the session with a chosen image whose model failed to load, for a run in
which the image decodes: `analyzeImage` sets the demo result Siamese cat, 85.00. -/
theorem C6_fallback_witness :
    analyzeImage exponentForm decodedRun loadFailed =
        ({ loadFailed with
            predictions := some { label := "Siamese cat, Siamese", confidence := "85.00" } },
          []) ∧
      ((decodedRun.imageLoads = true → loadFailed.modelRef = none →
        tryBlock exponentForm decodedRun loadFailed.modelRef =
          Outcome.demo { label := randomLabel decodedRun.labelDraw
                         confidence := randomConfidence exponentForm decodedRun.confidenceDraw } ∧
        analyzeImage exponentForm decodedRun loadFailed =
          ({ loadFailed with
              predictions := some { label := randomLabel decodedRun.labelDraw
                                    confidence :=
                                      randomConfidence exponentForm decodedRun.confidenceDraw }
              isLoading := false }, [])) ∧
      (¬ (decodedRun.imageLoads = true ∧ loadFailed.modelRef = none) →
        (∀ r, tryBlock exponentForm decodedRun loadFailed.modelRef ≠ Outcome.demo r) ∧
        (analyzeImage exponentForm decodedRun loadFailed =
            ({ loadFailed with isLoading := false }, [analysisFailedAlert]) ∨
          ∃ p txt r, decodedRun.predictions = some p ∧ decodedRun.labelsText = some txt ∧
            rankedResult exponentForm p txt = some r ∧
            analyzeImage exponentForm decodedRun loadFailed =
              ({ loadFailed with predictions := some r, isLoading := false }, []))) ∧
      (loadFailed.modelLoaded = false → loadFailed.modelRef = none) ∧
      (loadModel none loadFailed).1.modelRef = loadFailed.modelRef ∧
      (loadModel none loadFailed).1.modelLoaded = true) :=
  ⟨by decide!,
    C6_fallback_iff_no_model_handle exponentForm loadFailed decodedRun
      (Reachable.next _ (Event.loadSettled none)
        (Reachable.next _ (Event.readerLoad dataUrl)
          (Reachable.next _ (Event.fileChange (some pngFile)) Reachable.init rfl) rfl)
        (by decide!))
      (by decide!)⟩

/-- C7: for every session state with a model handle and a selected image, the `try` block of
`analyzeImage` never ends with the demo result, the outcome of `analyzeImage` does not depend on
the random draws, and a result it sets is the one ranked from the probability vector and the
label text, the earlier value of `predictions` staying when the block throws. -/
theorem C7_real_inference_precedence (numberToString : ℚ → String) (a : Analysis) (s : Session)
    (m : Model) (hm : s.modelRef = some m) (hi : truthy s.selectedImage = true) :
    (∀ r, tryBlock numberToString a s.modelRef ≠ Outcome.demo r) ∧
      (∀ d1 d2 : Draw,
        analyzeImage numberToString { a with labelDraw := d1, confidenceDraw := d2 } s =
          analyzeImage numberToString a s) ∧
      ((tryBlock numberToString a s.modelRef = Outcome.thrown ∧
          (analyzeImage numberToString a s).1.predictions = s.predictions) ∨
        ∃ p txt r, a.predictions = some p ∧ a.labelsText = some txt ∧
          rankedResult numberToString p txt = some r ∧
          tryBlock numberToString a s.modelRef = Outcome.real r ∧
          (analyzeImage numberToString a s).1.predictions = some r) := by
  have hdraw : ∀ d1 d2 : Draw,
      tryBlock numberToString { a with labelDraw := d1, confidenceDraw := d2 } (some m) =
        tryBlock numberToString a (some m) := fun _ _ => rfl
  refine ⟨?_, ?_, ?_⟩
  · intro r hr
    rw [hm] at hr
    exact tryBlock_some_ne_demo numberToString a m r hr
  · intro d1 d2
    rw [analyzeImage_eq _ _ _ hi, analyzeImage_eq _ _ _ hi]
    simp only [analyzeFinish, hm, hdraw]
  · rw [analyzeImage_eq _ _ _ hi]
    simp only [analyzeFinish, hm]
    rcases tryBlock_some numberToString a m with ht | ⟨p, txt, r, _, _, hp, htxt, hr, ho⟩
    · left
      rw [ht]
      exact ⟨rfl, rfl⟩
    · right
      rw [ho]
      exact ⟨p, txt, r, hp, htxt, hr, rfl, rfl⟩

/-- C7 at a session with a model handle and the vector 0.1, 0.7, 0.2: the result set is dog with
70.00. -/
theorem C7_real_inference_witness :
    (analyzeImage exponentForm rankedRun modelReady).1.predictions =
        some { label := "dog", confidence := "70.00" } ∧
      ((∀ r, tryBlock exponentForm rankedRun modelReady.modelRef ≠ Outcome.demo r) ∧
      (∀ d1 d2 : Draw,
        analyzeImage exponentForm { rankedRun with labelDraw := d1, confidenceDraw := d2 }
            modelReady =
          analyzeImage exponentForm rankedRun modelReady) ∧
      ((tryBlock exponentForm rankedRun modelReady.modelRef = Outcome.thrown ∧
          (analyzeImage exponentForm rankedRun modelReady).1.predictions =
            modelReady.predictions) ∨
        ∃ p txt r, rankedRun.predictions = some p ∧ rankedRun.labelsText = some txt ∧
          rankedResult exponentForm p txt = some r ∧
          tryBlock exponentForm rankedRun modelReady.modelRef = Outcome.real r ∧
          (analyzeImage exponentForm rankedRun modelReady).1.predictions = some r)) :=
  ⟨by decide!,
    C7_real_inference_precedence exponentForm rankedRun modelReady (Model.mk "model.json")
      (by decide!) (by decide!)⟩

/-- C8: for every session state and every selected file whose declared media type does not start
with `image/`, `handleFileSelect` raises the invalid-file alert and nothing else and returns the
state it was given, so `selectedImage`, `predictions`, `fileName` and `isLoading` are
unchanged. -/
theorem C8_non_image_rejected (s : Session) (f : File)
    (hf : f.type.startsWith "image/" = false) :
    handleFileSelect (some f) s = (s, [invalidFileAlert]) := by
  simp [handleFileSelect, hf]

/-- C8 at a file of type text/plain, in a session that shows a result. -/
theorem C8_non_image_witness :
    textFile.type.startsWith "image/" = false ∧
      handleFileSelect (some textFile) resultShown = (resultShown, [invalidFileAlert]) :=
  ⟨by decide!, C8_non_image_rejected resultShown textFile (by decide!)⟩

/-- C9 fails as stated: in a reachable session that shows the result of an earlier analysis, a
run of `analyzeImage` in which the image fails to decode raises the alert and ends with the same
state, the earlier result still in `predictions`. -/
theorem C9_result_remains_after_failure :
    Reachable exponentForm resultShown ∧ truthy resultShown.selectedImage = true ∧
      resultShown.predictions =
        some { label := "Siamese cat, Siamese", confidence := "85.00" } ∧
      tryBlock exponentForm failedDecodeRun resultShown.modelRef = Outcome.thrown ∧
      analyzeImage exponentForm failedDecodeRun resultShown =
        (resultShown, [analysisFailedAlert]) ∧
      (analyzeImage exponentForm failedDecodeRun resultShown).1.predictions =
        some { label := "Siamese cat, Siamese", confidence := "85.00" } :=
  ⟨Reachable.next _ (Event.analyzeSettled decodedRun)
      (Reachable.next _ Event.analyzeClick
        (Reachable.next _ (Event.loadSettled none)
          (Reachable.next _ (Event.readerLoad dataUrl)
            (Reachable.next _ (Event.fileChange (some pngFile)) Reachable.init rfl) rfl)
          (by decide!))
        (by decide!))
      (by decide!),
    by decide!, by decide!, by decide!, by decide!, by decide!⟩

/-- C9 as amended: for every session state with a selected image, when the image fails to
decode, or with a model handle the preprocessing, the inference, the fetch of the labels or the
lookup of the winning entry fails, `analyzeImage` raises the analysis alert and nothing else, and
returns the state with `isLoading` false and every other variable as before the call: no partly
filled result is set, and `predictions` keeps the value it had. -/
theorem C9_failure_keeps_state (numberToString : ℚ → String) (a : Analysis) (s : Session)
    (hi : truthy s.selectedImage = true)
    (hfail : a.imageLoads = false ∨
      (s.modelRef ≠ none ∧ (a.tensorReady = false ∨ a.predictions = none ∨
        a.predictions = some [] ∨ a.labelsText = none))) :
    tryBlock numberToString a s.modelRef = Outcome.thrown ∧
      analyzeImage numberToString a s = ({ s with isLoading := false }, [analysisFailedAlert]) ∧
      (analyzeImage numberToString a s).1.predictions = s.predictions := by
  have hthrown : tryBlock numberToString a s.modelRef = Outcome.thrown := by
    rcases hfail with hl | ⟨hm, hrest⟩
    · simp [tryBlock, hl]
    · cases hmr : s.modelRef with
      | none => exact absurd hmr hm
      | some m =>
        cases hl : a.imageLoads with
        | false => simp [tryBlock, hl]
        | true =>
          rcases hrest with ht | hp | hp | htx
          · simp [tryBlock, hl, ht]
          · cases htr : a.tensorReady <;> simp [tryBlock, hl, htr, hp]
          · cases htr : a.tensorReady with
            | false => simp [tryBlock, hl, htr]
            | true =>
              cases htx : a.labelsText with
              | none => simp [tryBlock, hl, htr, hp, htx]
              | some txt =>
                have hr : rankedResult numberToString [] txt = none := rfl
                simp [tryBlock, hl, htr, hp, htx, hr]
          · cases htr : a.tensorReady with
            | false => simp [tryBlock, hl, htr]
            | true =>
              cases hp : a.predictions with
              | none => simp [tryBlock, hl, htr, hp]
              | some p => simp [tryBlock, hl, htr, hp, htx]
  have hrun : analyzeImage numberToString a s =
      ({ s with isLoading := false }, [analysisFailedAlert]) := by
    rw [analyzeImage_eq _ _ _ hi]
    simp only [analyzeFinish, hthrown]
  refine ⟨hthrown, hrun, ?_⟩
  rw [hrun]

/-- C9 as amended, at a session with a model handle that shows the result dog, 70.00, for a run
in which the inference throws: the result dog, 70.00 stays. -/
theorem C9_failure_witness :
    rankedShown.predictions = some { label := "dog", confidence := "70.00" } ∧
      (tryBlock exponentForm inferenceFailsRun rankedShown.modelRef = Outcome.thrown ∧
      analyzeImage exponentForm inferenceFailsRun rankedShown =
        ({ rankedShown with isLoading := false }, [analysisFailedAlert]) ∧
      (analyzeImage exponentForm inferenceFailsRun rankedShown).1.predictions =
        rankedShown.predictions) :=
  ⟨by decide!,
    C9_failure_keeps_state exponentForm inferenceFailsRun rankedShown (by decide!)
      (Or.inr ⟨by decide!, Or.inr (Or.inl rfl)⟩)⟩

/-- C10: for every session state with a selected image, `analyzeImage` starts by setting
`isLoading` to true, its end sets `isLoading` to false in whatever state it finds and with
whatever outcome, so that after the whole call `isLoading` is false; and in every state the
analyze button is enabled exactly when an image is selected and `isLoading` is false. -/
theorem C10_loading_indicator (numberToString : ℚ → String) (a : Analysis) (s : Session)
    (hi : truthy s.selectedImage = true) :
    (∃ s1, analyzeStart s = some s1 ∧ s1.isLoading = true) ∧
      (∀ s2 : Session, (analyzeFinish numberToString a s2).1.isLoading = false) ∧
      (analyzeImage numberToString a s).1.isLoading = false ∧
      (∀ s3 : Session,
        analyzeDisabled s3 = false ↔ (truthy s3.selectedImage = true ∧ s3.isLoading = false)) := by
  have hfin : ∀ s2 : Session, (analyzeFinish numberToString a s2).1.isLoading = false := by
    intro s2
    unfold analyzeFinish
    cases tryBlock numberToString a s2.modelRef <;> rfl
  refine ⟨⟨{ s with isLoading := true }, by simp [analyzeStart, hi], rfl⟩, hfin, ?_, ?_⟩
  · rw [analyzeImage_eq _ _ _ hi]
    exact hfin _
  · intro s3
    unfold analyzeDisabled
    cases truthy s3.selectedImage <;> cases s3.isLoading <;> simp

/-- C10 at the session with a chosen image, for a run that succeeds and one that fails. -/
theorem C10_loading_witness :
    (analyzeImage exponentForm decodedRun imageChosen).1.isLoading = false ∧
      (analyzeImage exponentForm failedDecodeRun imageChosen).1.isLoading = false ∧
      ((∃ s1, analyzeStart imageChosen = some s1 ∧ s1.isLoading = true) ∧
      (∀ s2 : Session, (analyzeFinish exponentForm failedDecodeRun s2).1.isLoading = false) ∧
      (analyzeImage exponentForm failedDecodeRun imageChosen).1.isLoading = false ∧
      (∀ s3 : Session,
        analyzeDisabled s3 = false ↔
          (truthy s3.selectedImage = true ∧ s3.isLoading = false))) :=
  ⟨by decide!, by decide!,
    C10_loading_indicator exponentForm failedDecodeRun imageChosen (by decide!)⟩

end ImageScanner
